import Mathlib

/-!
Verification development for the minecraftty repository.

Shallow embedding conventions:
* Rust f32/f64 arithmetic on the small integral values that occur here is
  modelled over the rationals; all values involved are exactly representable.
* Rust u16 arithmetic is modelled as natural numbers reduced modulo 65536 at
  every operation that the source performs on u16 values.
* The external noise crate (Perlin) is modelled as an abstract parameter
  noise with the range hypothesis stated by the specification.
* Pixel buffers are lists of natural numbers (byte values); every indexing
  operation of the source is modelled with List.getD and an explicit
  out-of-range default, so that independence from the default expresses
  absence of out-of-range reads.
-/

namespace Minecraftty

/-- Block materials, from src/world_gen.rs (enum BlockType). -/
inductive BlockType where
  | Grass
  | Dirt
  | Stone
deriving DecidableEq

/-- A voxel block, from src/world_gen.rs (struct Block).  The source stores
the position as a Vec3 of f32; the values written there are integers, so the
embedding keeps them as an integer triple. -/
structure Block where
  position : ℤ × ℤ × ℤ
  block_type : BlockType
deriving DecidableEq

def defaultBlock : Block := ⟨(0, 0, 0), BlockType.Stone⟩

def CHUNK_SIZE : ℕ := 8

/-- Height mapping from src/world_gen.rs line 141:
((height_noise + 1.0) * 2.0 + 3.0) as usize.  The cast truncates toward
zero and saturates below at 0, which for every rational agrees with
Int.toNat of the floor on the nonnegative range and with 0 below it. -/
def heightOf (n : ℚ) : ℕ :=
  (Int.toNat ⌊(n + 1) * 2 + 3⌋)

/-- Material chosen for height y inside a column of the given height,
from src/world_gen.rs lines 149-155.  The source computes height - 3 on
usize; for the heights reachable under the documented noise range
(height at least 3) truncated Nat subtraction agrees with it. -/
def blockTypeAt (height y : ℕ) : BlockType :=
  if y = height - 1 then BlockType.Grass
  else if y > height - 3 then BlockType.Dirt
  else BlockType.Stone

/-- Noise sample position for column (x, z) of the chunk, from
src/world_gen.rs lines 137-140: the chunk position is scaled by CHUNK_SIZE
and the world coordinate is divided by 8. -/
def columnHeight (noise : ℚ → ℚ → ℚ) (cp : ℤ × ℤ) (x z : ℕ) : ℕ :=
  heightOf (noise ((x + cp.1 * 8) / 8) ((z + cp.2 * 8) / 8))

/-- One generated column, bottom to top, from src/world_gen.rs lines
143-161; each block stores world_pos = actual_chunk_pos + (x, y, z). -/
def generateColumn (noise : ℚ → ℚ → ℚ) (cp : ℤ × ℤ) (x z : ℕ) : List Block :=
  (List.range (columnHeight noise cp x z)).map (fun (y : ℕ) =>
    { position := (cp.1 * 8 + x, (y : ℤ), cp.2 * 8 + z)
      block_type := blockTypeAt (columnHeight noise cp x z) y })

/-- generate_chunk from src/world_gen.rs lines 127-170, parameterised by
the noise function that the source obtains from the external Perlin crate. -/
def generateChunk (noise : ℚ → ℚ → ℚ) (cp : ℤ × ℤ) : List (List (List Block)) :=
  (List.range CHUNK_SIZE).map (fun x =>
    (List.range CHUNK_SIZE).map (fun z =>
      generateColumn noise cp x z))

/-- The block stored at local indices (x, z, y) of a generated chunk,
with a default for out-of-range indices. -/
def blockAt (noise : ℚ → ℚ → ℚ) (cp : ℤ × ℤ) (x z y : ℕ) : Block :=
  (((generateChunk noise cp).getD x []).getD z []).getD y defaultBlock

/-- Flattening of the triple loop of generate_chunk_geometry
(src/world_gen.rs lines 39-41) into the processed block sequence. -/
def chunkBlocks (chunk : List (List (List Block))) : List Block :=
  (chunk.map List.flatten).flatten

/-! ### Mesh builder, src/world_gen.rs lines 22-125 -/

/-- Interleaved vertex, from src/geometry.rs (struct Vertex). -/
structure Vertex where
  position : ℚ × ℚ × ℚ
  color : ℚ × ℚ × ℚ
  tex_coord : ℚ × ℚ
deriving DecidableEq

def grass_side_tc : List (ℚ × ℚ) := [(0, 0), (1/2, 1/2), (0, 1/2), (1/2, 0)]

def grass_top_tc : List (ℚ × ℚ) := [(1/2, 0), (1, 1/2), (1/2, 1/2), (1, 0)]

def stone_tc : List (ℚ × ℚ) := [(0, 1/2), (1/2, 1), (0, 1), (1/2, 1/2)]

def dirt_tc : List (ℚ × ℚ) := [(1/2, 1/2), (1, 1), (1/2, 1), (1, 1/2)]

/-- Per-face texture coordinate table, src/world_gen.rs lines 46-52. -/
def texCoordsFor : BlockType → List (List (ℚ × ℚ))
  | BlockType.Grass =>
      [grass_side_tc, grass_side_tc, grass_side_tc, grass_side_tc, dirt_tc, grass_top_tc]
  | BlockType.Dirt => [dirt_tc, dirt_tc, dirt_tc, dirt_tc, dirt_tc, dirt_tc]
  | BlockType.Stone => [stone_tc, stone_tc, stone_tc, stone_tc, stone_tc, stone_tc]

def tcAt (b : BlockType) (f j : ℕ) : ℚ × ℚ :=
  ((texCoordsFor b).getD f []).getD j (0, 0)

/-- The 24 cube vertices of one block, transcribed from src/world_gen.rs
lines 55-91 (front, back, left, right, bottom, top; 4 vertices each). -/
def cubeVertices (b : Block) : List Vertex :=
  let x : ℚ := b.position.1
  let y : ℚ := b.position.2.1
  let z : ℚ := b.position.2.2
  let t := b.block_type
  [ ⟨(x, y + 1, z + 1), (1, 0, 0), tcAt t 0 0⟩
  , ⟨(x + 1, y, z + 1), (0, 1, 0), tcAt t 0 1⟩
  , ⟨(x, y, z + 1), (0, 0, 1), tcAt t 0 2⟩
  , ⟨(x + 1, y + 1, z + 1), (0, 0, 1), tcAt t 0 3⟩
  , ⟨(x, y + 1, z), (1, 0, 0), tcAt t 1 0⟩
  , ⟨(x + 1, y, z), (0, 1, 0), tcAt t 1 1⟩
  , ⟨(x, y, z), (0, 0, 1), tcAt t 1 2⟩
  , ⟨(x + 1, y + 1, z), (0, 0, 1), tcAt t 1 3⟩
  , ⟨(x, y + 1, z), (1, 0, 0), tcAt t 2 0⟩
  , ⟨(x, y, z + 1), (0, 1, 0), tcAt t 2 1⟩
  , ⟨(x, y, z), (0, 0, 1), tcAt t 2 2⟩
  , ⟨(x, y + 1, z + 1), (0, 0, 1), tcAt t 2 3⟩
  , ⟨(x + 1, y + 1, z), (1, 0, 0), tcAt t 3 0⟩
  , ⟨(x + 1, y, z + 1), (0, 1, 0), tcAt t 3 1⟩
  , ⟨(x + 1, y, z), (0, 0, 1), tcAt t 3 2⟩
  , ⟨(x + 1, y + 1, z + 1), (0, 0, 1), tcAt t 3 3⟩
  , ⟨(x, y, z + 1), (1, 0, 0), tcAt t 4 0⟩
  , ⟨(x + 1, y, z), (0, 1, 0), tcAt t 4 1⟩
  , ⟨(x, y, z), (0, 0, 1), tcAt t 4 2⟩
  , ⟨(x + 1, y, z + 1), (0, 0, 1), tcAt t 4 3⟩
  , ⟨(x, y + 1, z + 1), (1, 0, 0), tcAt t 5 0⟩
  , ⟨(x + 1, y + 1, z), (0, 1, 0), tcAt t 5 1⟩
  , ⟨(x, y + 1, z), (0, 0, 1), tcAt t 5 2⟩
  , ⟨(x + 1, y + 1, z + 1), (0, 0, 1), tcAt t 5 3⟩ ]

/-- All vertices emitted for a block sequence (vertices.extend per block). -/
def meshVertices (blocks : List Block) : List Vertex :=
  (blocks.map cubeVertices).flatten

/-- The face_indices table of src/world_gen.rs lines 97-110, verbatim:
the entries already name the absolute vertex slot of the cube. -/
def faceIdxLists : List (List ℕ) :=
  [ [0, 1, 2, 0, 3, 1]
  , [6, 5, 4, 5, 7, 4]
  , [8, 9, 10, 8, 11, 9]
  , [14, 13, 12, 13, 15, 12]
  , [16, 17, 18, 16, 19, 17]
  , [22, 21, 20, 21, 23, 20] ]

/-- The inner push loop for one face, src/world_gen.rs lines 112-117:
base = index_offset + face * 4 on u16 (reduced mod 65536), then
base + idx pushed, again on u16. -/
def pushFace (off face : ℕ) : List ℕ :=
  (faceIdxLists.getD face []).map (fun idx => ((off + face * 4) % 65536 + idx) % 65536)

/-- Indices emitted for one block at the given index_offset. -/
def blockIdxChunk (off : ℕ) : List ℕ :=
  ((List.range 6).map (pushFace off)).flatten

/-- The index-emission loop over the block sequence, threading the u16
index_offset (incremented by 24 per block, wrapping mod 65536).  The source
has no failure path here: the function is total and cannot report an
overflow to the caller. -/
def meshIndicesAux : List Block → ℕ → List ℕ
  | [], _ => []
  | _ :: bs, off => blockIdxChunk off ++ meshIndicesAux bs ((off + 24) % 65536)

def meshIndices (blocks : List Block) : List ℕ :=
  meshIndicesAux blocks 0

/-- generate_chunk_geometry, src/world_gen.rs lines 22-125: generate the
chunk, then build the vertex and index buffers over its flattened blocks.
It returns the buffers unconditionally. -/
def generateChunkGeometry (noise : ℚ → ℚ → ℚ) (cp : ℤ × ℤ) : List Vertex × List ℕ :=
  (meshVertices (chunkBlocks (generateChunk noise cp)),
   meshIndices (chunkBlocks (generateChunk noise cp)))

/-! ### Frame compositor, src/main.rs lines 210-311 (present_to_terminal)

The body is a straight-line sequence of fallible terminal writes.  Each
write of the source (begin-synchronized-update, cursor-home, the per-row
cursor move, the foreground escape, the background escape, the glyph, the
end-synchronized-update) is one OutItem; rendering any item to bytes gives
a nonempty escape or glyph sequence, so an output with zero color items is
exactly an output with zero color-escape bytes. -/

/-- A configuration of present_to_terminal: terminal_width, terminal_height
and renderer.width as read by the sampling code. -/
structure PresentCfg where
  termW : ℕ
  termH : ℕ
  rendW : ℕ
deriving DecidableEq

/-- One terminal write of present_to_terminal. -/
inductive OutItem where
  | beginSync
  | cursorHome
  | gotoRow (r : ℕ)
  | setFg (c : List ℕ)
  | setBg (c : List ℕ)
  | glyph
  | endSync
deriving DecidableEq

/-- top_left_idx, src/main.rs line 238. -/
def topIdx (rendW col row : ℕ) : ℕ := ((row * 2) * rendW + col * 2) * 4

/-- top_right_idx, src/main.rs lines 239-240. -/
def topRightIdx (rendW col row : ℕ) : ℕ := ((row * 2) * rendW + (col * 2 + 1)) * 4

/-- bottom_left_idx, src/main.rs lines 262-263. -/
def botIdx (rendW col row : ℕ) : ℕ := ((row * 2 + 1) * rendW + col * 2) * 4

/-- bottom_right_idx, src/main.rs lines 264-265. -/
def botRightIdx (rendW col row : ℕ) : ℕ := ((row * 2 + 1) * rendW + (col * 2 + 1)) * 4

/-- The c1 color of a cell, src/main.rs lines 242-259.  The averaging is
(a as u16 + b as u16) / 2 followed by the truncating cast to u8, modelled
as Nat division followed by mod 256.  Parameter d is the value returned by
an out-of-range read; the source performs none under these guards, which
theorem c6 below states as independence from d. -/
def resolveTop (d : ℕ) (px : List ℕ) (rendW col row : ℕ) : List ℕ :=
  let tl := topIdx rendW col row
  let tr := topRightIdx rendW col row
  if tl + 2 < px.length ∧ tr + 2 < px.length then
    [ ((px.getD tl d + px.getD tr d) / 2) % 256
    , ((px.getD (tl + 1) d + px.getD (tr + 1) d) / 2) % 256
    , ((px.getD (tl + 2) d + px.getD (tr + 2) d) / 2) % 256 ]
  else if tl + 2 < px.length then
    [px.getD tl d, px.getD (tl + 1) d, px.getD (tl + 2) d]
  else [0, 0, 0]

/-- The c2 color of a cell, src/main.rs lines 261-287, falling back to the
c1 color when the bottom row is out of range. -/
def resolveBot (d : ℕ) (px : List ℕ) (rendW col row : ℕ) : List ℕ :=
  let bl := botIdx rendW col row
  let br := botRightIdx rendW col row
  if bl + 2 < px.length ∧ br + 2 < px.length then
    [ ((px.getD bl d + px.getD br d) / 2) % 256
    , ((px.getD (bl + 1) d + px.getD (br + 1) d) / 2) % 256
    , ((px.getD (bl + 2) d + px.getD (br + 2) d) / 2) % 256 ]
  else if bl + 2 < px.length then
    [px.getD bl d, px.getD (bl + 1) d, px.getD (bl + 2) d]
  else resolveTop d px rendW col row

/-- The resolved (foreground, background) pair of a cell. -/
def cellPair (d : ℕ) (px : List ℕ) (rendW col row : ℕ) : List ℕ × List ℕ :=
  (resolveTop d px rendW col row, resolveBot d px rendW col row)

/-- The prev_color1 and prev_color2 locals of src/main.rs lines 223-224.
They are created inside present_to_terminal, so no cell state survives
from one call to the next. -/
structure DiffState where
  prev_color1 : Option (List ℕ)
  prev_color2 : Option (List ℕ)
deriving DecidableEq

/-- The cell pair remembered by a DiffState, when both locals are set. -/
def stOpt (s : DiffState) : Option (List ℕ × List ℕ) :=
  match s.prev_color1, s.prev_color2 with
  | some a, some b => some (a, b)
  | _, _ => none

/-- The per-cell emission, src/main.rs lines 289-302.  The source condition
is prev_color1.is_none or unwrap differs or prev_color2.is_none or unwrap
differs, which is the negation of both options holding exactly the current
colors; both prev locals are always assigned together. -/
def emitCols : List (List ℕ × List ℕ) → DiffState → List OutItem × DiffState
  | [], s => ([], s)
  | c :: rest, s =>
      if s.prev_color1 = some c.1 ∧ s.prev_color2 = some c.2 then
        let q := emitCols rest s
        (OutItem.glyph :: q.1, q.2)
      else
        let q := emitCols rest ⟨some c.1, some c.2⟩
        (OutItem.setFg c.1 :: OutItem.setBg c.2 :: OutItem.glyph :: q.1, q.2)

/-- The resolved pairs of one terminal row, left to right. -/
def rowPairs (d : ℕ) (cfg : PresentCfg) (px : List ℕ) (row : ℕ) : List (List ℕ × List ℕ) :=
  (List.range cfg.termW).map (fun col => cellPair d px cfg.rendW col row)

/-- The row loop, src/main.rs lines 228-304: a cursor move to each row
followed by the cells of that row, with the prev state carried across rows. -/
def emitRows (f : ℕ → List (List ℕ × List ℕ)) : List ℕ → DiffState → List OutItem × DiffState
  | [], s => ([], s)
  | r :: rest, s =>
      let p := emitCols (f r) s
      let q := emitRows f rest p.2
      (OutItem.gotoRow (r + 1) :: (p.1 ++ q.1), q.2)

/-- The write sequence of one present_to_terminal call: begin synchronized
update, cursor home, the rows, end synchronized update. -/
def presentItemsD (d : ℕ) (cfg : PresentCfg) (px : List ℕ) : List OutItem :=
  OutItem.beginSync :: OutItem.cursorHome ::
    ((emitRows (rowPairs d cfg px) (List.range cfg.termH) ⟨none, none⟩).1 ++ [OutItem.endSync])

def presentItems (cfg : PresentCfg) (px : List ℕ) : List OutItem :=
  presentItemsD 0 cfg px

/-- Two successive calls of present_to_terminal on the same pixel buffer.
The function takes an immutable receiver and creates its diff locals
afresh, so the second call is the same pure function of the buffer. -/
def presentTwice (cfg : PresentCfg) (px : List ℕ) : List OutItem × List OutItem :=
  (presentItems cfg px, presentItems cfg px)

def isColorItem : OutItem → Bool
  | OutItem.setFg _ => true
  | OutItem.setBg _ => true
  | _ => false

/-- Number of color-setting escape writes in an output. -/
def colorEscapeCount (l : List OutItem) : ℕ :=
  l.countP isColorItem

/-- Specification-level count: a cell emits exactly when it is the first
cell or its resolved pair differs from the pair of the previous cell. -/
def changeRuns : List (List ℕ × List ℕ) → Option (List ℕ × List ℕ) → ℕ
  | [], _ => 0
  | c :: rest, prev => (if prev = some c then 0 else 1) + changeRuns rest (some c)

/-- The row-major cell pair list of a frame. -/
def cellList (d : ℕ) (cfg : PresentCfg) (px : List ℕ) : List (List ℕ × List ℕ) :=
  ((List.range cfg.termH).map (rowPairs d cfg px)).flatten

/-- Execution of the write sequence when the write with the given index
fails: the source chains every write with the question-mark operator, so
the writes before the failing one have happened and the function returns
the error immediately; the Bool is true when no write failed. -/
def presentEmitted (failAt : ℕ) (cfg : PresentCfg) (px : List ℕ) : List OutItem × Bool :=
  let w := presentItems cfg px
  if failAt < w.length then (w.take failAt, false) else (w, true)

/-! ### Gradient function, src/perlin.rs lines 70-86 -/

/-- grad3d from src/perlin.rs: the source matches on h and 15 (equal to
h mod 16) with twelve explicit arms and a catch-all returning 0. -/
def grad3d (h : ℕ) (x y z : ℚ) : ℚ :=
  match h % 16 with
  | 0 => x + y
  | 12 => x + y
  | 1 => y - x
  | 14 => y - x
  | 2 => x - y
  | 3 => -x - y
  | 4 => x + z
  | 5 => z - x
  | 6 => x - z
  | 7 => -x - z
  | 8 => y + z
  | 9 => z - y
  | 13 => z - y
  | 10 => y - z
  | 11 => -y - z
  | 15 => -y - z
  | _ => 0

/-! ### Helper lemmas -/

theorem getD_map_range {α : Type} (n i : ℕ) (f : ℕ → α) (d : α) (h : i < n) :
    ((List.range n).map f).getD i d = f i := by
  rw [List.getD_eq_getElem _ _ (by simpa using h)]
  simp

theorem cubeVertices_length (b : Block) : (cubeVertices b).length = 24 := rfl

theorem meshVertices_length (blocks : List Block) :
    (meshVertices blocks).length = 24 * blocks.length := by
  induction blocks with
  | nil => rfl
  | cons b bs ih =>
      have e : meshVertices (b :: bs) = cubeVertices b ++ meshVertices bs := rfl
      rw [e, List.length_append, ih, cubeVertices_length, List.length_cons]
      ring

theorem blockIdxChunk_length (off : ℕ) : (blockIdxChunk off).length = 36 := rfl

theorem meshIndicesAux_length (l : List Block) :
    ∀ off, (meshIndicesAux l off).length = 36 * l.length := by
  induction l with
  | nil => intro off; rfl
  | cons b bs ih =>
      intro off
      rw [meshIndicesAux, List.length_append, blockIdxChunk_length, ih, List.length_cons]
      ring

theorem pushFace_mod (off : ℕ) : pushFace (off % 65536) = pushFace off := by
  funext face
  simp [pushFace, Nat.mod_add_mod]

theorem blockIdxChunk_mod (off : ℕ) : blockIdxChunk (off % 65536) = blockIdxChunk off := by
  simp [blockIdxChunk, pushFace_mod]

theorem meshIndicesAux_mod (l : List Block) :
    ∀ off, meshIndicesAux l (off % 65536) = meshIndicesAux l off := by
  induction l with
  | nil => intro off; rfl
  | cons b bs ih =>
      intro off
      rw [meshIndicesAux, meshIndicesAux, blockIdxChunk_mod, Nat.mod_add_mod, ih]

theorem meshIndicesAux_append (l1 l2 : List Block) :
    ∀ off, meshIndicesAux (l1 ++ l2) off =
      meshIndicesAux l1 off ++ meshIndicesAux l2 ((off + 24 * l1.length) % 65536) := by
  induction l1 with
  | nil =>
      intro off
      simp [meshIndicesAux, meshIndicesAux_mod]
  | cons b bs ih =>
      intro off
      rw [List.cons_append, meshIndicesAux, meshIndicesAux, ih, List.append_assoc]
      have e : ((off + 24) % 65536 + 24 * bs.length) % 65536 =
          (off + 24 * (b :: bs).length) % 65536 := by
        rw [Nat.mod_add_mod, List.length_cons]
        ring_nf
      rw [e]

theorem getD_congr (l : List ℕ) (i d1 d2 : ℕ) (h : i < l.length) :
    l.getD i d1 = l.getD i d2 := by
  rw [List.getD_eq_getElem _ _ h, List.getD_eq_getElem _ _ h]

theorem resolveTop_indep (d : ℕ) (px : List ℕ) (rendW col row : ℕ) :
    resolveTop d px rendW col row = resolveTop 0 px rendW col row := by
  simp only [resolveTop]
  by_cases h1 : topIdx rendW col row + 2 < px.length ∧ topRightIdx rendW col row + 2 < px.length
  · rw [if_pos h1, if_pos h1,
      getD_congr px (topIdx rendW col row) d 0 (by omega),
      getD_congr px (topRightIdx rendW col row) d 0 (by omega),
      getD_congr px (topIdx rendW col row + 1) d 0 (by omega),
      getD_congr px (topRightIdx rendW col row + 1) d 0 (by omega),
      getD_congr px (topIdx rendW col row + 2) d 0 (by omega),
      getD_congr px (topRightIdx rendW col row + 2) d 0 (by omega)]
  · rw [if_neg h1, if_neg h1]
    by_cases h2 : topIdx rendW col row + 2 < px.length
    · rw [if_pos h2, if_pos h2,
        getD_congr px (topIdx rendW col row) d 0 (by omega),
        getD_congr px (topIdx rendW col row + 1) d 0 (by omega),
        getD_congr px (topIdx rendW col row + 2) d 0 (by omega)]
    · rw [if_neg h2, if_neg h2]

theorem resolveBot_indep (d : ℕ) (px : List ℕ) (rendW col row : ℕ) :
    resolveBot d px rendW col row = resolveBot 0 px rendW col row := by
  simp only [resolveBot]
  by_cases h1 : botIdx rendW col row + 2 < px.length ∧ botRightIdx rendW col row + 2 < px.length
  · rw [if_pos h1, if_pos h1,
      getD_congr px (botIdx rendW col row) d 0 (by omega),
      getD_congr px (botRightIdx rendW col row) d 0 (by omega),
      getD_congr px (botIdx rendW col row + 1) d 0 (by omega),
      getD_congr px (botRightIdx rendW col row + 1) d 0 (by omega),
      getD_congr px (botIdx rendW col row + 2) d 0 (by omega),
      getD_congr px (botRightIdx rendW col row + 2) d 0 (by omega)]
  · rw [if_neg h1, if_neg h1]
    by_cases h2 : botIdx rendW col row + 2 < px.length
    · rw [if_pos h2, if_pos h2,
        getD_congr px (botIdx rendW col row) d 0 (by omega),
        getD_congr px (botIdx rendW col row + 1) d 0 (by omega),
        getD_congr px (botIdx rendW col row + 2) d 0 (by omega)]
    · rw [if_neg h2, if_neg h2]
      exact resolveTop_indep d px rendW col row

theorem cellPair_indep (d : ℕ) (px : List ℕ) (rendW col row : ℕ) :
    cellPair d px rendW col row = cellPair 0 px rendW col row := by
  rw [cellPair, cellPair, resolveTop_indep, resolveBot_indep]

theorem rowPairs_indep (d : ℕ) (cfg : PresentCfg) (px : List ℕ) :
    rowPairs d cfg px = rowPairs 0 cfg px := by
  funext r
  simp [rowPairs, cellPair_indep]

theorem presentItemsD_indep (d : ℕ) (cfg : PresentCfg) (px : List ℕ) :
    presentItemsD d cfg px = presentItemsD 0 cfg px := by
  rw [presentItemsD, presentItemsD, rowPairs_indep]

theorem columnHeight_zero_noise (cp : ℤ × ℤ) (x z : ℕ) :
    columnHeight (fun _ _ => 0) cp x z = 5 := by
  have e : columnHeight (fun _ _ => (0 : ℚ)) cp x z = heightOf 0 := rfl
  rw [e]
  unfold heightOf
  norm_num
  rfl

/-! ### Claim theorems -/

/-- C9: grad3d is total over its twelve gradient arms: for every natural h
and all rational coordinates, the value of grad3d is one of the twelve
signed two-component sums, so the catch-all arm returning 0 is never the
value source. -/
theorem grad3d_total (h : ℕ) (x y z : ℚ) :
    grad3d h x y z ∈ ([x + y, y - x, x - y, -x - y, x + z, z - x, x - z, -x - z,
      y + z, z - y, y - z, -y - z] : List ℚ) := by
  have h16 : h % 16 = 0 ∨ h % 16 = 1 ∨ h % 16 = 2 ∨ h % 16 = 3 ∨ h % 16 = 4 ∨ h % 16 = 5 ∨
      h % 16 = 6 ∨ h % 16 = 7 ∨ h % 16 = 8 ∨ h % 16 = 9 ∨ h % 16 = 10 ∨ h % 16 = 11 ∨
      h % 16 = 12 ∨ h % 16 = 13 ∨ h % 16 = 14 ∨ h % 16 = 15 := by omega
  unfold grad3d
  rcases h16 with h16 | h16 | h16 | h16 | h16 | h16 | h16 | h16 | h16 | h16 | h16 | h16 |
    h16 | h16 | h16 | h16 <;> rw [h16] <;> simp

/-- C4: for every block sequence the builder emits exactly 24 vertices and
36 indices per block, but the emitted indices are NOT all below 24 times
the block count: already for a single block the value 43 is emitted,
because the face_indices entries contain the 4-per-face offset and the
loop adds face times 4 once more. -/
theorem mesh_counts_hold_but_bound_fails :
    (∀ blocks : List Block,
      (meshVertices blocks).length = 24 * blocks.length ∧
      (meshIndices blocks).length = 36 * blocks.length) ∧
    ((43 : ℕ) ∈ meshIndices [defaultBlock] ∧ ¬ (43 < 24 * 1)) := by
  refine ⟨fun blocks => ⟨meshVertices_length blocks, meshIndicesAux_length blocks 0⟩, ?_⟩
  decide

/-- C5: counterexample evaluation for the per-face index layout.  For
block 0 the back face (face 1) is claimed to receive the indices
24 times 0 plus 4 times 1 plus the mirrored window, that is
[6, 5, 4, 5, 7, 4]; the code actually emits [10, 9, 8, 9, 11, 8] there,
because the face offset is applied twice (the table entries already
contain it and base adds face times 4 again). -/
theorem back_face_indices_doubled_offset :
    ((meshIndices [defaultBlock]).drop 6).take 6 = [10, 9, 8, 9, 11, 8] ∧
    ([10, 9, 8, 9, 11, 8] : List ℕ) ≠ [6, 5, 4, 5, 7, 4] := by
  decide

/-- C5 (amended form): for every block sequence, block k and face f, the
six indices actually emitted are 24 k + 8 f plus the local forward pattern
[0,1,2,0,3,1] for even faces and the mirrored pattern [2,1,0,1,3,0] for
odd faces, everything reduced modulo 65536; shown here for one block, where
the offset of face f is 8 f, not 4 f. -/
theorem face_offsets_are_eight :
    meshIndices [defaultBlock] =
      ((List.range 6).map (fun f =>
        (if f % 2 = 0 then [0, 1, 2, 0, 3, 1] else [2, 1, 0, 1, 3, 0]).map
          (fun j => 8 * f + j))).flatten := by
  decide

/-- C2: with 2731 blocks (one more than the claimed 16-bit capacity) the
mesh build does not fail: it still emits 36 indices per block, the last
block contributes the chunk for index_offset 65520, and the final emitted
index is 24 — a silent 16-bit wraparound ((65520 + 20) + 20) mod 65536 —
instead of an explicit, typed error. -/
theorem overflow_wraps_silently :
    meshIndices (List.replicate 2731 defaultBlock) =
      meshIndices (List.replicate 2730 defaultBlock) ++ blockIdxChunk 65520 ∧
    (blockIdxChunk 65520).getLast? = some 24 ∧
    (meshIndices (List.replicate 2731 defaultBlock)).length = 36 * 2731 := by
  refine ⟨?_, by decide, ?_⟩
  · have e : List.replicate 2731 defaultBlock =
        List.replicate 2730 defaultBlock ++ [defaultBlock] := by
      have e2 : (2731 : ℕ) = 2730 + 1 := by norm_num
      rw [e2, List.replicate_succ']
    rw [meshIndices, e, meshIndicesAux_append]
    simp only [List.length_replicate]
    have e3 : (0 + 24 * 2730) % 65536 = 65520 := by norm_num
    rw [e3, meshIndices]
    have e4 : meshIndicesAux [defaultBlock] 65520 = blockIdxChunk 65520 := by decide
    rw [e4]
  · rw [meshIndices, meshIndicesAux_length, List.length_replicate]

theorem stOpt_eq (s : DiffState) (c : List ℕ × List ℕ) :
    (s.prev_color1 = some c.1 ∧ s.prev_color2 = some c.2) ↔ stOpt s = some c := by
  rcases s with ⟨p1, p2⟩
  cases p1 <;> cases p2 <;> simp [stOpt, Prod.ext_iff]

theorem emitCols_spec (pairs : List (List ℕ × List ℕ)) :
    ∀ s : DiffState,
      colorEscapeCount (emitCols pairs s).1 = 2 * changeRuns pairs (stOpt s) ∧
      stOpt (emitCols pairs s).2 =
        pairs.foldl (fun _ c => some c) (stOpt s) := by
  induction pairs with
  | nil => intro s; simp [emitCols, changeRuns, colorEscapeCount]
  | cons c rest ih =>
      intro s
      by_cases hc : s.prev_color1 = some c.1 ∧ s.prev_color2 = some c.2
      · have hs : stOpt s = some c := (stOpt_eq s c).mp hc
        have e : emitCols (c :: rest) s =
            (OutItem.glyph :: (emitCols rest s).1, (emitCols rest s).2) := by
          simp [emitCols, hc]
        obtain ⟨ih1, ih2⟩ := ih s
        rw [hs] at ih1 ih2
        rw [e]
        constructor
        · have e2 : colorEscapeCount (OutItem.glyph :: (emitCols rest s).1) =
              colorEscapeCount (emitCols rest s).1 := by
            simp [colorEscapeCount, List.countP_cons, isColorItem]
          rw [e2, ih1, hs]
          simp [changeRuns]
        · rw [List.foldl_cons, ih2]
      · have hs : stOpt s ≠ some c := fun h => hc ((stOpt_eq s c).mpr h)
        have e : emitCols (c :: rest) s =
            (OutItem.setFg c.1 :: OutItem.setBg c.2 :: OutItem.glyph ::
              (emitCols rest ⟨some c.1, some c.2⟩).1,
             (emitCols rest ⟨some c.1, some c.2⟩).2) := by
          simp [emitCols, hc]
        have hs2 : stOpt ⟨some c.1, some c.2⟩ = some c := by simp [stOpt]
        obtain ⟨ih1, ih2⟩ := ih ⟨some c.1, some c.2⟩
        rw [hs2] at ih1 ih2
        rw [e]
        constructor
        · have e2 : colorEscapeCount (OutItem.setFg c.1 :: OutItem.setBg c.2 ::
              OutItem.glyph :: (emitCols rest ⟨some c.1, some c.2⟩).1) =
              2 + colorEscapeCount (emitCols rest ⟨some c.1, some c.2⟩).1 := by
            simp [colorEscapeCount, List.countP_cons, isColorItem]
            ring
          rw [e2, ih1]
          simp [changeRuns, hs]
          ring
        · rw [List.foldl_cons, ih2]

theorem changeRuns_append (l1 l2 : List (List ℕ × List ℕ)) :
    ∀ o, changeRuns (l1 ++ l2) o =
      changeRuns l1 o + changeRuns l2 (l1.foldl (fun _ c => some c) o) := by
  induction l1 with
  | nil => intro o; simp [changeRuns]
  | cons c rest ih =>
      intro o
      rw [List.cons_append, changeRuns, changeRuns, ih, List.foldl_cons]
      ring

theorem emitRows_spec (f : ℕ → List (List ℕ × List ℕ)) (rows : List ℕ) :
    ∀ s : DiffState,
      colorEscapeCount (emitRows f rows s).1 =
        2 * changeRuns ((rows.map f).flatten) (stOpt s) ∧
      stOpt (emitRows f rows s).2 =
        ((rows.map f).flatten).foldl (fun _ c => some c) (stOpt s) := by
  induction rows with
  | nil => intro s; simp [emitRows, changeRuns, colorEscapeCount]
  | cons r rest ih =>
      intro s
      have e : emitRows f (r :: rest) s =
          (OutItem.gotoRow (r + 1) ::
            ((emitCols (f r) s).1 ++ (emitRows f rest (emitCols (f r) s).2).1),
           (emitRows f rest (emitCols (f r) s).2).2) := by
        simp [emitRows]
      obtain ⟨c1, c2⟩ := emitCols_spec (f r) s
      obtain ⟨r1, r2⟩ := ih (emitCols (f r) s).2
      rw [c2] at r1 r2
      rw [e]
      constructor
      · have e2 : colorEscapeCount (OutItem.gotoRow (r + 1) ::
            ((emitCols (f r) s).1 ++ (emitRows f rest (emitCols (f r) s).2).1)) =
            colorEscapeCount (emitCols (f r) s).1 +
            colorEscapeCount (emitRows f rest (emitCols (f r) s).2).1 := by
          simp [colorEscapeCount, List.countP_cons, List.countP_append, isColorItem]
        rw [e2, c1, r1, List.map_cons, List.flatten_cons, changeRuns_append]
        ring
      · rw [List.map_cons, List.flatten_cons, List.foldl_append]
        exact r2

/-- C10: a cell whose top-left pixel read would start beyond the pixel
buffer resolves its foreground to black [0,0,0], and its background also
resolves to black through the reuse-top fallback, for every buffer size
and every out-of-range default. -/
theorem out_of_range_cell_black (d : ℕ) (px : List ℕ) (rendW col row : ℕ)
    (h : px.length ≤ topIdx rendW col row + 2) :
    resolveTop d px rendW col row = [0, 0, 0] ∧
    resolveBot d px rendW col row = [0, 0, 0] := by
  have hmono : topIdx rendW col row ≤ botIdx rendW col row := by
    have h1 : (row * 2) * rendW ≤ (row * 2 + 1) * rendW :=
      Nat.mul_le_mul_right _ (by omega)
    unfold topIdx botIdx
    omega
  have htl : ¬ (topIdx rendW col row + 2 < px.length) := by omega
  have hbl : ¬ (botIdx rendW col row + 2 < px.length) := by omega
  have h1 : resolveTop d px rendW col row = [0, 0, 0] := by
    simp only [resolveTop]
    rw [if_neg (fun hc => htl hc.1), if_neg htl]
  refine ⟨h1, ?_⟩
  simp only [resolveBot]
  rw [if_neg (fun hc => hbl hc.1), if_neg hbl]
  exact h1

/-- C10 witness: the empty pixel buffer at cell (0,0). -/
theorem out_of_range_cell_black_w :
    resolveTop 5 [] 2 0 0 = [0, 0, 0] ∧ resolveBot 5 [] 2 0 0 = [0, 0, 0] :=
  out_of_range_cell_black 5 [] 2 0 0 (by decide)

/-- C6: when the top pixel of a cell is inside the pixel buffer but the
bottom-row read would go out of range, the cell background reuses the top
color; and no present computation reads out of the buffer: the whole write
stream is independent of the value an out-of-range read would return. -/
theorem bottom_fallback_and_no_oob (d : ℕ) (px : List ℕ) (rendW col row : ℕ)
    (cfg : PresentCfg) :
    (topIdx rendW col row + 2 < px.length →
      px.length ≤ botIdx rendW col row + 2 →
      resolveBot d px rendW col row = resolveTop d px rendW col row) ∧
    presentItemsD d cfg px = presentItemsD 0 cfg px := by
  constructor
  · intro _ hb
    have hbl : ¬ (botIdx rendW col row + 2 < px.length) := by omega
    simp only [resolveBot]
    rw [if_neg (fun hc => hbl hc.1), if_neg hbl]
  · exact presentItemsD_indep d cfg px

/-- C6 witness: a 10-byte buffer with renderer width 2: the top-left read
of cell (0,0) starts at 0 and is in range, the bottom-left read starts at
8 and its guard fails, so the background reuses the top color. -/
theorem bottom_fallback_and_no_oob_w :
    resolveBot 3 (List.replicate 10 7) 2 0 0 = resolveTop 3 (List.replicate 10 7) 2 0 0 ∧
    presentItemsD 3 ⟨1, 1, 2⟩ (List.replicate 10 7) =
      presentItemsD 0 ⟨1, 1, 2⟩ (List.replicate 10 7) :=
  ⟨(bottom_fallback_and_no_oob 3 (List.replicate 10 7) 2 0 0 ⟨1, 1, 2⟩).1
      (by decide) (by decide),
   (bottom_fallback_and_no_oob 3 (List.replicate 10 7) 2 0 0 ⟨1, 1, 2⟩).2⟩

/-- C1 counterexample: present_to_terminal keeps its prev-color locals
inside the call, so a second call on the identical pixel buffer is the
same pure function of the buffer; for a 1 by 1 terminal over a 2 by 2
pixel buffer the second component of presentTwice — the output of the
second call — contains color-setting escapes, not zero of them. -/
theorem second_present_emits_colors :
    colorEscapeCount (presentTwice ⟨1, 1, 2⟩ (List.replicate 16 100)).2 ≠ 0 := by
  decide

/-- C1 (amended): the compositor retains no per-cell state across calls —
a second identical call emits exactly the bytes of the first — and within
one call it emits the two color escapes for a cell exactly when the cell
is the first one or its resolved pair differs from the pair of the
previous cell in row-major order. -/
theorem present_stateless_and_run_diffed (cfg : PresentCfg) (px : List ℕ) :
    (presentTwice cfg px).2 = (presentTwice cfg px).1 ∧
    colorEscapeCount (presentItems cfg px) = 2 * changeRuns (cellList 0 cfg px) none := by
  refine ⟨rfl, ?_⟩
  have e : colorEscapeCount (presentItems cfg px) =
      colorEscapeCount (emitRows (rowPairs 0 cfg px) (List.range cfg.termH)
        ⟨none, none⟩).1 := by
    simp [presentItems, presentItemsD, colorEscapeCount, List.countP_cons,
      List.countP_append, isColorItem]
  rw [e, (emitRows_spec (rowPairs 0 cfg px) (List.range cfg.termH) ⟨none, none⟩).1]
  rfl

/-- C7: if the second terminal write of a frame (the cursor-home escape)
fails, present_to_terminal returns the error at once through the
question-mark operator: the emitted stream contains the opening
synchronized-update escape but not the closing one, so the terminal is
left inside an open synchronized-update bracket. -/
theorem failing_write_leaves_bracket_open :
    (presentEmitted 1 ⟨1, 1, 2⟩ (List.replicate 16 100)).2 = false ∧
    OutItem.beginSync ∈ (presentEmitted 1 ⟨1, 1, 2⟩ (List.replicate 16 100)).1 ∧
    OutItem.endSync ∉ (presentEmitted 1 ⟨1, 1, 2⟩ (List.replicate 16 100)).1 := by
  decide

theorem heightOf_bounds (n : ℚ) (h1 : -1 ≤ n) (h2 : n ≤ 1) :
    3 ≤ heightOf n ∧ heightOf n ≤ 7 := by
  unfold heightOf
  have hl : (3 : ℤ) ≤ ⌊(n + 1) * 2 + 3⌋ := by
    apply Int.le_floor.mpr
    push_cast
    linarith
  have hu : ⌊(n + 1) * 2 + 3⌋ ≤ 7 := by
    have hx : ((n + 1) * 2 + 3 : ℚ) ≤ 7 := by linarith
    have := Int.floor_le ((n + 1) * 2 + 3 : ℚ)
    have : (⌊(n + 1) * 2 + 3⌋ : ℚ) ≤ 7 := le_trans this hx
    exact_mod_cast this
  omega

theorem columnShape (h : ℕ) (h3 : 3 ≤ h) :
    (List.range h).map (blockTypeAt h) =
      List.replicate (h - 2) BlockType.Stone ++ [BlockType.Dirt, BlockType.Grass] := by
  obtain ⟨m, rfl⟩ : ∃ m, h = m + 3 := ⟨h - 3, by omega⟩
  have e1 : List.range (m + 3) = List.range (m + 2) ++ [m + 2] := by
    have e : m + 3 = Nat.succ (m + 2) := rfl
    rw [e, List.range_succ]
  have e2 : List.range (m + 2) = List.range (m + 1) ++ [m + 1] := by
    have e : m + 2 = Nat.succ (m + 1) := rfl
    rw [e, List.range_succ]
  have hg : blockTypeAt (m + 3) (m + 2) = BlockType.Grass := by
    unfold blockTypeAt
    rw [if_pos (by omega)]
  have hd : blockTypeAt (m + 3) (m + 1) = BlockType.Dirt := by
    unfold blockTypeAt
    rw [if_neg (by omega), if_pos (by omega)]
  have hs : (List.range (m + 1)).map (blockTypeAt (m + 3)) =
      List.replicate (m + 1) BlockType.Stone := by
    apply List.eq_replicate_iff.mpr
    refine ⟨by simp, ?_⟩
    intro b hb
    obtain ⟨y, hy, rfl⟩ := List.mem_map.mp hb
    have hy2 : y < m + 1 := List.mem_range.mp hy
    unfold blockTypeAt
    rw [if_neg (by omega), if_neg (by omega)]
  have e3 : m + 3 - 2 = m + 1 := by omega
  rw [e1, e2, List.map_append, List.map_append, hs, e3]
  simp [hg, hd]

/-- C3: assuming every noise sample lies in [-1, 1], every column of every
generated chunk has height in [3, 7] and the material stack from bottom to
top is Stone repeated, then at most two Dirt blocks (the code produces
exactly one), then Grass on top. -/
theorem chunk_columns_shape (noise : ℚ → ℚ → ℚ) (cp : ℤ × ℤ) (x z : ℕ)
    (hn : ∀ a b : ℚ, -1 ≤ noise a b ∧ noise a b ≤ 1)
    (hx : x < CHUNK_SIZE) (hz : z < CHUNK_SIZE) :
    3 ≤ (((generateChunk noise cp).getD x []).getD z []).length ∧
    (((generateChunk noise cp).getD x []).getD z []).length ≤ 7 ∧
    ∃ k ≤ 2, (((generateChunk noise cp).getD x []).getD z []).map Block.block_type =
      List.replicate ((((generateChunk noise cp).getD x []).getD z []).length - 1 - k)
          BlockType.Stone ++
        List.replicate k BlockType.Dirt ++ [BlockType.Grass] := by
  have ecol : ((generateChunk noise cp).getD x []).getD z [] =
      generateColumn noise cp x z := by
    rw [generateChunk, getD_map_range CHUNK_SIZE x _ _ hx,
      getD_map_range CHUNK_SIZE z _ _ hz]
  obtain ⟨hb1, hb2⟩ := heightOf_bounds (noise ((x + cp.1 * 8) / 8) ((z + cp.2 * 8) / 8))
    (hn _ _).1 (hn _ _).2
  have hh3 : 3 ≤ columnHeight noise cp x z := hb1
  have hlen : (generateColumn noise cp x z).length = columnHeight noise cp x z := by
    simp [generateColumn]
  have hmap : (generateColumn noise cp x z).map Block.block_type =
      (List.range (columnHeight noise cp x z)).map
        (blockTypeAt (columnHeight noise cp x z)) := by
    simp [generateColumn, List.map_map]
  rw [ecol, hlen]
  refine ⟨hh3, hb2, 1, by omega, ?_⟩
  rw [hmap, columnShape _ hh3]
  have e4 : columnHeight noise cp x z - 1 - 1 = columnHeight noise cp x z - 2 := by omega
  rw [e4]
  simp

/-- C3 witness: the constant-zero noise function and chunk (0, 0); every
hypothesis is discharged at this concrete input. -/
theorem chunk_columns_shape_w :
    3 ≤ (((generateChunk (fun _ _ => 0) (0, 0)).getD 0 []).getD 0 []).length ∧
    (((generateChunk (fun _ _ => 0) (0, 0)).getD 0 []).getD 0 []).length ≤ 7 ∧
    ∃ k ≤ 2, (((generateChunk (fun _ _ => 0) (0, 0)).getD 0 []).getD 0 []).map
        Block.block_type =
      List.replicate ((((generateChunk (fun _ _ => 0) (0, 0)).getD 0 []).getD 0
            []).length - 1 - k) BlockType.Stone ++
        List.replicate k BlockType.Dirt ++ [BlockType.Grass] :=
  chunk_columns_shape (fun _ _ => 0) (0, 0) 0 0
    (fun a b => by norm_num) (by decide) (by decide)

/-- C8 counterexample: the block generated at local indices (0, 0, 0) of
chunk (1, 0) stores position (8, 0, 0), not the local triple (0, 0, 0):
the stored position is the world position and depends on the requested
chunk coordinate. -/
theorem block_position_depends_on_chunk :
    (blockAt (fun _ _ => 0) (1, 0) 0 0 0).position = ((8 : ℤ), (0 : ℤ), (0 : ℤ)) ∧
    ((8 : ℤ), (0 : ℤ), (0 : ℤ)) ≠ (((0 : ℤ), (0 : ℤ), (0 : ℤ)) : ℤ × ℤ × ℤ) := by
  constructor
  · have hy : (0 : ℕ) < columnHeight (fun _ _ => 0) (1, 0) 0 0 := by
      rw [columnHeight_zero_noise]
      norm_num
    rw [blockAt, generateChunk, getD_map_range CHUNK_SIZE 0 _ _ (by decide),
      getD_map_range CHUNK_SIZE 0 _ _ (by decide), generateColumn,
      getD_map_range _ 0 _ _ hy]
    norm_num
  · decide

/-- C8 (amended): every generated block stores the world position
(cx * CHUNK_SIZE + x, y, cz * CHUNK_SIZE + z) of its local indices
x, z below CHUNK_SIZE and y below the column height. -/
theorem block_positions_world (noise : ℚ → ℚ → ℚ) (cp : ℤ × ℤ) (x z y : ℕ)
    (hx : x < CHUNK_SIZE) (hz : z < CHUNK_SIZE)
    (hy : y < columnHeight noise cp x z) :
    (blockAt noise cp x z y).position = (cp.1 * 8 + x, (y : ℤ), cp.2 * 8 + z) := by
  rw [blockAt, generateChunk, getD_map_range CHUNK_SIZE x _ _ hx,
    getD_map_range CHUNK_SIZE z _ _ hz, generateColumn,
    getD_map_range (columnHeight noise cp x z) y _ _ hy]

/-- C8 witness: block (0, 0, 0) of chunk (1, 0) under constant-zero noise. -/
theorem block_positions_world_w :
    (blockAt (fun _ _ => 0) (1, 0) 0 0 0).position =
      ((1 : ℤ) * 8 + (0 : ℕ), ((0 : ℕ) : ℤ), (0 : ℤ) * 8 + (0 : ℕ)) :=
  block_positions_world (fun _ _ => 0) (1, 0) 0 0 0 (by decide) (by decide)
    (by rw [columnHeight_zero_noise]; norm_num)

end Minecraftty
